import Mathlib

/-!
Verification of the Shake&Tune signal-analysis core.

This file gives a shallow embedding, over `ℚ` and `List`, of the computation
layer of the repository (`shaketune/graph_creators/computations/`):

* `belts_computation.py` — peak pairing (`_pair_peaks`), mechanical-health
  scoring (`_compute_mhi`, `_mhi_lut`) and the belts `compute` orchestration;
* `static_frequency_computation.py` — the `compute` orchestration;
* `shaper_computation.py` — `_calibrate_shaper` and the shaper-selection
  consolidation loop of `compute`.

External collaborators (Klipper `shaper_calibrate.process_accelerometer_data`,
`find_best_shaper`, scipy `pearsonr`, the PSD/spectrogram routines) are taken
as oracle parameters: the embedded code is the repository code, the oracles
stand for the library calls it makes.  numpy primitives actually used by the
embedded code (`np.median`, `np.percentile`, `np.clip`, `np.max`, `list`
indexing) are embedded over rationals.
-/

namespace ShakeTune

/-! ### numpy primitives -/

/-- Ascending sort of a rational list (models the sort performed inside
`np.median` / `np.percentile`). -/
def npSort (l : List ℚ) : List ℚ := l.insertionSort (· ≤ ·)

/-- `np.percentile` with the default linear interpolation: the value at
fractional position `q * (n - 1) / 100` of the ascending sorted data.
Python errors on an empty array; the embedding returns `0` there. -/
def npPercentile (l : List ℚ) (q : ℚ) : ℚ :=
  let s := npSort l
  let n := s.length
  let pos : ℚ := q * ((n : ℚ) - 1) / 100
  let i : ℕ := (⌊pos⌋).toNat
  let g : ℚ := pos - (i : ℚ)
  s.getD i 0 + g * (s.getD (i + 1) 0 - s.getD i 0)

/-- `np.median`, which for the linear interpolation method coincides with the
50th percentile. -/
def npMedian (l : List ℚ) : ℚ := npPercentile l 50

/-- `np.clip x lo hi`. -/
def npClip (x lo hi : ℚ) : ℚ := min (max x lo) hi

/-- `np.max` of an array; Python errors on an empty array, the embedding
returns `0` there. -/
def npMax (l : List ℚ) : ℚ :=
  match l with
  | [] => 0
  | a :: t => t.foldl max a

/-! ### Peak pairing (`BeltsComputation._pair_peaks`) -/

/-- Result of the peak pairing algorithm (the `PeakPairingResult` NamedTuple):
each paired entry is `((idx1, freq1, psd1), (idx2, freq2, psd2))`. -/
structure PeakPairingResult where
  paired_peaks : List ((ℕ × ℚ × ℚ) × (ℕ × ℚ × ℚ))
  unpaired_peaks1 : List ℕ
  unpaired_peaks2 : List ℕ
deriving DecidableEq, Repr

/-- `abs(freqs1[p1] - freqs2[p2])` for a candidate pair `p = (p1, p2)`
(out-of-range indices read `0`; the source only evaluates in-range peaks). -/
def pairDist (freqs1 freqs2 : List ℚ) (p : ℕ × ℕ) : ℚ :=
  |freqs1.getD p.1 0 - freqs2.getD p.2 0|

/-- The scan order of the nested `for p1 ... for p2 ...` loops. -/
def allPairs (u1 u2 : List ℕ) : List (ℕ × ℕ) :=
  u1.flatMap fun p1 => u2.map fun p2 => (p1, p2)

/-- One step of the inner scan: `if distance < min_distance: update`. -/
def scanStep (d : ℕ × ℕ → ℚ) (acc : ℚ × Option (ℕ × ℕ)) (q : ℕ × ℕ) :
    ℚ × Option (ℕ × ℕ) :=
  if d q < acc.1 then (d q, some q) else acc

/-- The full scan of one `while` iteration: `min_distance` starts at the
sentinel (`threshold + 1` in the source) and `pair` starts at `None`. -/
def findClosestPair (d : ℕ × ℕ → ℚ) (u1 u2 : List ℕ) (sentinel : ℚ) :
    ℚ × Option (ℕ × ℕ) :=
  (allPairs u1 u2).foldl (scanStep d) (sentinel, none)

/-- The dynamic detection threshold:
`min(median + 1.5 * (p75 - p25), 10)` when distances exist, else `10`. -/
def dynThreshold (distances : List ℚ) : ℚ :=
  if 0 < distances.length then
    min (npMedian distances +
      3 / 2 * (npPercentile distances 75 - npPercentile distances 25)) 10
  else 10

/-- The greedy `while unpaired_peaks1 and unpaired_peaks2` loop, with fuel.
The source loop runs at most `len(peaks1)` iterations (each iteration removes
one element of each list), so `pairPeaks` below passes exactly that fuel. -/
def pairLoop (f1 f2 s1 s2 : List ℚ) (threshold : ℚ) :
    ℕ → List ℕ → List ℕ → PeakPairingResult
  | 0, u1, u2 => ⟨[], u1, u2⟩
  | fuel + 1, u1, u2 =>
    if u1 = [] ∨ u2 = [] then ⟨[], u1, u2⟩
    else
      match (findClosestPair (pairDist f1 f2) u1 u2 (threshold + 1)).2 with
      | none => ⟨[], u1, u2⟩
      | some (p1, p2) =>
        let r := pairLoop f1 f2 s1 s2 threshold fuel (u1.erase p1) (u2.erase p2)
        ⟨((p1, f1.getD p1 0, s1.getD p1 0), (p2, f2.getD p2 0, s2.getD p2 0)) ::
            r.paired_peaks,
          r.unpaired_peaks1, r.unpaired_peaks2⟩

/-- `BeltsComputation._pair_peaks`. -/
def pairPeaks (peaks1 : List ℕ) (freqs1 psd1 : List ℚ)
    (peaks2 : List ℕ) (freqs2 psd2 : List ℚ) : PeakPairingResult :=
  let distances := (allPairs peaks1 peaks2).map (pairDist freqs1 freqs2)
  pairLoop freqs1 freqs2 psd1 psd2 (dynThreshold distances) peaks1.length peaks1 peaks2

/-! ### Signal data and mechanical-health scoring -/

/-- `SignalData` from `computation_results.py`. -/
structure SignalData where
  freqs : List ℚ
  psd : List ℚ
  peaks : List ℕ
  paired_peaks : Option (List ((ℕ × ℚ × ℚ) × (ℕ × ℚ × ℚ))) := none
  unpaired_peaks : Option (List ℕ) := none
deriving DecidableEq, Repr

/-- `DC_MAX_PEAKS`. -/
def DC_MAX_PEAKS : ℕ := 2

/-- `DC_MAX_UNPAIRED_PEAKS_ALLOWED`. -/
def DC_MAX_UNPAIRED_PEAKS_ALLOWED : ℕ := 0

/-- The numeric part of `BeltsComputation._compute_mhi` (everything before the
final `_mhi_lut` lookup).  `paired_peaks` / `unpaired_peaks` are read from the
signals; the belts `compute` always sets them before calling this. -/
def mhiValue (similarity_factor : ℚ) (signal1 signal2 : SignalData) : ℚ :=
  let unpaired1 := signal1.unpaired_peaks.getD []
  let unpaired2 := signal2.unpaired_peaks.getD []
  let num_unpaired_peaks := unpaired1.length + unpaired2.length
  let num_paired_peaks := (signal1.paired_peaks.getD []).length
  let combined_unpaired_peaks :=
    unpaired1.map (fun peak => (peak, signal1)) ++
      unpaired2.map (fun peak => (peak, signal2))
  let psd_highest_max := max (npMax signal1.psd) (npMax signal2.psd)
  let mhi := similarity_factor
  let mhi :=
    if DC_MAX_PEAKS ≤ num_paired_peaks then
      mhi * ((DC_MAX_PEAKS : ℚ) / (num_paired_peaks : ℚ))
    else mhi
  let unpaired_peak_penalty :=
    combined_unpaired_peaks.foldl
      (fun acc pk => acc + pk.2.psd.getD pk.1 0 / psd_highest_max * 30) 0
  let mhi :=
    if DC_MAX_UNPAIRED_PEAKS_ALLOWED < num_unpaired_peaks then
      mhi - unpaired_peak_penalty
    else mhi
  npClip mhi 0 100

/-- The `ranges` table of `BeltsComputation._mhi_lut`. -/
def mhiRanges : List (ℚ × ℚ × String) :=
  [(70, 100, "Excellent mechanical health"),
   (55, 70, "Good mechanical health"),
   (45, 55, "Acceptable mechanical health"),
   (30, 45, "Potential signs of a mechanical issue"),
   (15, 30, "Likely a mechanical issue"),
   (0, 15, "Mechanical issue detected")]

/-- The range test `lower < mhi <= upper` of the `_mhi_lut` generator. -/
def mhiMatch (v : ℚ) (r : ℚ × ℚ × String) : Bool :=
  decide (r.1 < v) && decide (v ≤ r.2.1)

/-- `BeltsComputation._mhi_lut`: clamp to `[1, 100]`, then the first range
with `lower < mhi <= upper`, with an `Unknown` fallback. -/
def mhiLut (mhi : ℚ) : String :=
  let v := npClip mhi 1 100
  ((mhiRanges.find? (mhiMatch v)).map fun r => r.2.2).getD
    "Unknown mechanical health"

/-- `BeltsComputation._compute_mhi` (it returns the textual label). -/
def computeMhi (similarity_factor : ℚ) (signal1 signal2 : SignalData) : String :=
  mhiLut (mhiValue similarity_factor signal1 signal2)

/-! ### Belts computation orchestration (`BeltsComputation.compute`)

A `Measurement` is a dict with a `name` and `samples` that may be `None`; the
raw samples type is abstract (`α`).  The calls into the Klipper backend
(`_compute_signal_data`, which wraps `process_accelerometer_data` plus
interpolation and peak detection) and into scipy (`pearsonr`) are oracle
parameters.  Python exceptions become an `Except` error value. -/

/-- Python `str.split(sep)` over the character list: splits at every
occurrence of `sep`, keeping empty segments (so `"belt_A".split("_") =
["belt", "A"]` and `"x".split("_") = ["x"]`). -/
def pySplitChars (sep : Char) : List Char → List (List Char)
  | [] => [[]]
  | c :: rest =>
    let r := pySplitChars sep rest
    if c = sep then [] :: r
    else
      match r with
      | [] => [[c]]
      | h :: t => (c :: h) :: t

/-- Python `s.split(sep)` for a one-character separator. -/
def pySplit (sep : Char) (s : String) : List String :=
  (pySplitChars sep s.data).map fun l => String.mk l

/-- Python `s.upper()` (ASCII upper-casing, character by character). -/
def pyUpper (s : String) : String :=
  String.mk (s.data.map Char.toUpper)

/-- One accelerometer capture handed to the computation. -/
structure Measurement (α : Type) where
  name : String
  samples : Option α
deriving DecidableEq, Repr

/-- The Python exceptions the embedded orchestration code can raise. -/
inductive PyError where
  /-- `raise ValueError(msg)` -/
  | valueError (msg : String)
  /-- `IndexError` from an out-of-range list subscript -/
  | indexError
  /-- `NameError` from reading a never-assigned local -/
  | nameError
deriving DecidableEq, Repr

/-- `GraphMetadata` (title and version; `additional_info` only repackages the
constructor arguments and is omitted). -/
structure GraphMetadata where
  title : String
  version : String
deriving DecidableEq, Repr

/-- `BeltsResult` from `computation_results.py` (the fields the computation
fills; `test_params` is an opaque passthrough and is omitted). -/
structure BeltsResult (α : Type) where
  metadata : GraphMetadata
  measurements : List (Measurement α)
  signal1 : SignalData
  signal2 : SignalData
  signal1_belt : String
  signal2_belt : String
  kinematics : Option String
  max_freq : ℚ
  max_scale : Option ℤ
  similarity_factor : Option ℚ := none
  mhi : Option String := none
deriving DecidableEq, Repr

/-- The apostrophe character, used by the Python `repr` of a string list. -/
def pyQuote : String := String.singleton (Char.ofNat 39)

/-- Python `repr` of a list of strings, as interpolated by the f-string of the
cardinality error message. -/
def pyListReprAux : List String → String
  | [] => ""
  | [s] => pyQuote ++ s ++ pyQuote
  | s :: rest => pyQuote ++ s ++ pyQuote ++ ", " ++ pyListReprAux rest

/-- Python `str` of a list of strings: `[` ... `]`. -/
def pyListRepr (l : List String) : String :=
  "[" ++ pyListReprAux l ++ "]"

/-- The message of the `ValueError` raised when the belts computation does not
receive exactly 2 measurements. -/
def cardinalityMsg (n : ℕ) (names : List String) : String :=
  "This tool needs 2 measurements to work with (one for each belt)! Currently, it has " ++
    toString n ++ " measurements named " ++ pyListRepr names

/-- The `belt_info` dict (`.get` with default an empty string). -/
def beltInfo (belt : String) : String :=
  if belt = "A" then " (axis 1,-1)"
  else if belt = "B" then " (axis 1, 1)"
  else ""

/-- The kinematics for which a similarity factor and MHI are computed. -/
def kinematicsSet : List (Option String) :=
  [some "limited_corexy", some "corexy", some "limited_corexz", some "corexz"]

/-- `BeltsComputation.compute`.  `signalOf` is the oracle for
`_compute_signal_data` (the common frequency grid is fixed by `max_freq`, so
it is folded into the oracle); `pearson` is the oracle for
`scipy.stats.pearsonr` (its correlation component). -/
def beltsCompute {α : Type} (signalOf : α → SignalData)
    (pearson : List ℚ → List ℚ → ℚ) (kinematics : Option String)
    (max_freq : ℚ) (max_scale : Option ℤ) (st_version : String)
    (measurements : List (Measurement α)) :
    Except PyError (BeltsResult α) :=
  if h : measurements.length = 2 then
    let m1 := measurements.get ⟨0, by omega⟩
    let m2 := measurements.get ⟨1, by omega⟩
    -- datas = [np.array(m['samples']) for m in measurements if m['samples'] is not None]
    let datas := measurements.filterMap fun m => m.samples
    -- signal1_belt = measurements[0]['name'].split('_')[1] (<- possible IndexError)
    match (pySplit (Char.ofNat 95) m1.name).get? 1 with
    | none => .error .indexError
    | some belt1 =>
      match (pySplit (Char.ofNat 95) m2.name).get? 1 with
      | none => .error .indexError
      | some belt2 =>
        let signal1_belt := belt1 ++ beltInfo belt1
        let signal2_belt := belt2 ++ beltInfo belt2
        -- signal1 = self._compute_signal_data(datas[0], ...) (<- possible IndexError)
        match datas.get? 0 with
        | none => .error .indexError
        | some d1 =>
          match datas.get? 1 with
          | none => .error .indexError
          | some d2 =>
            let sig1 := signalOf d1
            let sig2 := signalOf d2
            let pairing :=
              pairPeaks sig1.peaks sig1.freqs sig1.psd sig2.peaks sig2.freqs sig2.psd
            let signal1 : SignalData :=
              { sig1 with paired_peaks := some pairing.paired_peaks,
                          unpaired_peaks := some pairing.unpaired_peaks1 }
            let signal2 : SignalData :=
              { sig2 with paired_peaks := some pairing.paired_peaks,
                          unpaired_peaks := some pairing.unpaired_peaks2 }
            let simMhi : Option ℚ × Option String :=
              if kinematics ∈ kinematicsSet then
                let similarity_factor := npClip (pearson signal1.psd signal2.psd * 100) 0 100
                (some similarity_factor,
                  some (computeMhi similarity_factor signal1 signal2))
              else (none, none)
            .ok { metadata := { title := "RELATIVE BELTS CALIBRATION TOOL",
                                version := st_version },
                  measurements := measurements,
                  signal1 := signal1, signal2 := signal2,
                  signal1_belt := signal1_belt, signal2_belt := signal2_belt,
                  kinematics := kinematics, max_freq := max_freq,
                  max_scale := max_scale,
                  similarity_factor := simMhi.1, mhi := simMhi.2 }
  else
    .error (.valueError
      (cardinalityMsg measurements.length (measurements.map fun m => m.name)))

/-! ### Static frequency computation (`StaticFrequencyComputation.compute`) -/

/-- `StaticFrequencyResult` (the spectrogram triple `(pdata, bins, t)` produced
by the `compute_spectrogram` oracle is kept abstract as `β`). -/
structure StaticFrequencyResult (α β : Type) where
  metadata : GraphMetadata
  measurements : List (Measurement α)
  freq : Option ℚ
  duration : Option ℚ
  accel_per_hz : Option ℚ
  spectrogram : β
  max_freq : ℚ
deriving DecidableEq, Repr

/-- `StaticFrequencyComputation.compute`; `spectrogramOf` is the oracle for
`compute_spectrogram`. -/
def staticFrequencyCompute {α β : Type} (spectrogramOf : α → β)
    (freq duration : Option ℚ) (max_freq : ℚ) (accel_per_hz : Option ℚ)
    (st_version : String) (measurements : List (Measurement α)) :
    Except PyError (StaticFrequencyResult α β) :=
  if measurements.length = 0 then
    .error (.valueError "No valid data found in the provided measurements!")
  else
    -- datas = [np.array(m['samples']) for m in measurements if m['samples'] is not None]
    let datas := measurements.filterMap fun m => m.samples
    -- pdata, bins, t = compute_spectrogram(datas[0]) (<- possible IndexError)
    match datas.get? 0 with
    | none => .error .indexError
    | some d =>
      .ok { metadata := { title := "STATIC FREQUENCY HELPER TOOL", version := st_version },
            measurements := measurements,
            freq := freq, duration := duration, accel_per_hz := accel_per_hz,
            spectrogram := spectrogramOf d, max_freq := max_freq }

/-! ### Shaper computation (`ShaperComputation`) -/

/-- A shaper candidate as returned by the Klipper backend. -/
structure KShaper where
  name : String
  freq : ℚ
  vibrs : ℚ
  smoothing : ℚ
  max_accel : ℚ
  vals : List ℚ
deriving DecidableEq, Repr

/-- `MIN_SMOOTHING = 0.001`. -/
def MIN_SMOOTHING : ℚ := 1 / 1000

/-- `MAX_VIBRATIONS = 5.0`. -/
def MAX_VIBRATIONS : ℚ := 5

/-- What `ShaperComputation._calibrate_shaper` returns: the 7-tuple
`(k_shaper_choice.name, k_shapers, shapers_tradeoff_data, calib_data, fr,
zeta, compat)` with `calib_data` kept abstract as `γ`. -/
structure CalibrationOutcome (γ : Type) where
  shaper_choice_name : String
  shapers : List KShaper
  shapers_tradeoff_data : Option Unit
  calib_data : γ
  fr : ℚ
  zeta : ℚ
  compat : Bool
deriving DecidableEq, Repr

/-- `ShaperComputation._calibrate_shaper`, modern (non-compat) path.
`find_best_shaper` is the Klipper oracle, keyed by the only argument the two
calls differ in, the `max_smoothing` bound.  The second call (with
`MIN_SMOOTHING`) is made by the source but its `k_shapers_max` result is a
dead local: nothing of it is returned. -/
def calibrateShaper {γ : Type} (find_best_shaper : Option ℚ → String × List KShaper)
    (calib_data : γ) (fr zeta : ℚ) (max_smoothing : Option ℚ) :
    CalibrationOutcome γ :=
  -- k_shaper_choice, k_shapers = shaper_calibrate.find_best_shaper(..., max_smoothing, ...)
  let firstPass := find_best_shaper max_smoothing
  -- _, k_shapers_max = shaper_calibrate.find_best_shaper(..., MIN_SMOOTHING, ...)
  let _k_shapers_max := find_best_shaper (some MIN_SMOOTHING)
  { shaper_choice_name := firstPass.1,
    shapers := firstPass.2,
    shapers_tradeoff_data := none,  -- not implemented in this version
    calib_data := calib_data, fr := fr, zeta := zeta, compat := false }

/-- Loop state of the performance-shaper search in `ShaperComputation.compute`
(`perf_shaper_choice = None`, `perf_shaper_freq = None`, `perf_shaper_accel = 0`). -/
structure PerfState where
  perf_shaper_choice : Option String
  perf_shaper_accel : ℚ
  perf_shaper_freq : Option ℚ
deriving DecidableEq, Repr

/-- One iteration of the `for shaper in k_shapers` loop, performance part:
`if perf_shaper_accel < shaper.max_accel and shaper.vibrs * 100 < MAX_VIBRATIONS`. -/
def perfStep (st : PerfState) (shaper : KShaper) : PerfState :=
  if st.perf_shaper_accel < shaper.max_accel ∧ shaper.vibrs * 100 < MAX_VIBRATIONS then
    { perf_shaper_choice := some shaper.name,
      perf_shaper_accel := shaper.max_accel,
      perf_shaper_freq := some shaper.freq }
  else st

/-- The performance-shaper selection over the candidate list. -/
def perfSelect (shapers : List KShaper) : PerfState :=
  shapers.foldl perfStep
    { perf_shaper_choice := none, perf_shaper_accel := 0, perf_shaper_freq := none }

/-- The `if shaper.name == k_shaper_choice` part of the same loop: the last
matching candidate sets `klipper_shaper_freq` / `klipper_shaper_accel`; if no
candidate matches, those locals stay unassigned. -/
def klipperShaperData (k_shaper_choice : String) (shapers : List KShaper) :
    Option (ℚ × ℚ) :=
  shapers.foldl
    (fun acc s => if s.name = k_shaper_choice then some (s.freq, s.max_accel) else acc)
    none

/-- The `shaper_choices` list built by `ShaperComputation.compute`: both
recommendations when the performance choice exists, differs from the Klipper
choice and reaches at least the Klipper acceleration; otherwise only the
Klipper choice.  Reading the unassigned `klipper_shaper_accel` /
`klipper_shaper_freq` is a `NameError`. -/
def shaperChoices (k_shaper_choice : String) (shapers : List KShaper) :
    Except PyError (List String) :=
  let perf := perfSelect shapers
  match klipperShaperData k_shaper_choice shapers with
  | none => .error .nameError
  | some kd =>
    .ok (match perf.perf_shaper_choice with
      | some pc =>
        if pc ≠ k_shaper_choice ∧ kd.2 ≤ perf.perf_shaper_accel then
          [pyUpper k_shaper_choice, pyUpper pc]
        else [pyUpper k_shaper_choice]
      | none => [pyUpper k_shaper_choice])

/-! ### Lemmas about the pairing scan -/

/-- Membership in the nested-loop pair enumeration. -/
lemma mem_allPairs {u1 u2 : List ℕ} {p : ℕ × ℕ} :
    p ∈ allPairs u1 u2 ↔ p.1 ∈ u1 ∧ p.2 ∈ u2 := by
  cases p with
  | mk a b =>
    simp only [allPairs, List.mem_flatMap, List.mem_map, Prod.mk.injEq]
    constructor
    · rintro ⟨x, hx, y, hy, rfl, rfl⟩
      exact ⟨hx, hy⟩
    · rintro ⟨ha, hb⟩
      exact ⟨a, ha, b, hb, rfl, rfl⟩

/-- Behaviour of the inner scan fold: the running minimum never increases, it
is a lower bound of the scanned distances, the recorded pair (when changed)
attains it strictly below the initial value, and if no pair was recorded the
initial state survived because every distance was at least the sentinel. -/
lemma foldl_scanStep_spec (d : ℕ × ℕ → ℚ) (l : List (ℕ × ℕ)) :
    ∀ (m : ℚ) (pr : Option (ℕ × ℕ)),
      (l.foldl (scanStep d) (m, pr)).1 ≤ m ∧
      (∀ q ∈ l, (l.foldl (scanStep d) (m, pr)).1 ≤ d q) ∧
      ((l.foldl (scanStep d) (m, pr)).2 = pr ∧ (l.foldl (scanStep d) (m, pr)).1 = m ∨
        ∃ q ∈ l, (l.foldl (scanStep d) (m, pr)).2 = some q ∧
          (l.foldl (scanStep d) (m, pr)).1 = d q ∧ d q < m) ∧
      ((l.foldl (scanStep d) (m, pr)).2 = none →
        pr = none ∧ (l.foldl (scanStep d) (m, pr)).1 = m ∧ ∀ q ∈ l, m ≤ d q) := by
  induction l with
  | nil => intro m pr; simp
  | cons q0 t ih =>
    intro m pr
    rw [List.foldl_cons]
    by_cases h : d q0 < m
    · rw [show scanStep d (m, pr) q0 = (d q0, some q0) by simp [scanStep, h]]
      obtain ⟨ih1, ih2, ih3, ih4⟩ := ih (d q0) (some q0)
      refine ⟨le_trans ih1 (le_of_lt h), ?_, ?_, ?_⟩
      · intro q hq
        rcases List.mem_cons.mp hq with rfl | hq
        · exact ih1
        · exact ih2 q hq
      · rcases ih3 with ⟨e2, e1⟩ | ⟨q, hq, e2, e1, hlt⟩
        · exact Or.inr ⟨q0, List.mem_cons_self q0 t, by rw [e2], e1, h⟩
        · exact Or.inr ⟨q, List.mem_cons_of_mem _ hq, e2, e1, lt_trans hlt h⟩
      · intro hnone
        rcases ih4 hnone with ⟨hpr, -, -⟩
        exact absurd hpr (by simp)
    · rw [show scanStep d (m, pr) q0 = (m, pr) by simp [scanStep, h]]
      obtain ⟨ih1, ih2, ih3, ih4⟩ := ih m pr
      refine ⟨ih1, ?_, ?_, ?_⟩
      · intro q hq
        rcases List.mem_cons.mp hq with rfl | hq
        · exact le_trans ih1 (not_lt.mp h)
        · exact ih2 q hq
      · rcases ih3 with h3 | ⟨q, hq, rest⟩
        · exact Or.inl h3
        · exact Or.inr ⟨q, List.mem_cons_of_mem _ hq, rest⟩
      · intro hnone
        obtain ⟨e0, e1, e2⟩ := ih4 hnone
        refine ⟨e0, e1, fun q hq => ?_⟩
        rcases List.mem_cons.mp hq with rfl | hq
        · exact not_lt.mp h
        · exact e2 q hq

/-- If the scan records a pair, it lies in both unmatched lists, attains the
scan minimum strictly below the sentinel, and is globally closest. -/
lemma findClosestPair_some (d : ℕ × ℕ → ℚ) (u1 u2 : List ℕ) (c : ℚ)
    (q : ℕ × ℕ) (h : (findClosestPair d u1 u2 c).2 = some q) :
    q.1 ∈ u1 ∧ q.2 ∈ u2 ∧ (findClosestPair d u1 u2 c).1 = d q ∧ d q < c ∧
      ∀ p ∈ allPairs u1 u2, d q ≤ d p := by
  rw [findClosestPair] at h ⊢
  obtain ⟨-, h2, h3, -⟩ := foldl_scanStep_spec d (allPairs u1 u2) c none
  rcases h3 with ⟨e2, -⟩ | ⟨q', hq', e2, e1, hlt⟩
  · rw [h] at e2; cases e2
  · rw [h] at e2
    injection e2 with e
    subst e
    obtain ⟨hq1, hq2⟩ := mem_allPairs.mp hq'
    exact ⟨hq1, hq2, e1, hlt, fun p hp => e1 ▸ h2 p hp⟩

/-- If the scan records no pair, every remaining candidate distance is at
least the sentinel. -/
lemma findClosestPair_none (d : ℕ × ℕ → ℚ) (u1 u2 : List ℕ) (c : ℚ)
    (h : (findClosestPair d u1 u2 c).2 = none) :
    ∀ p ∈ allPairs u1 u2, c ≤ d p := by
  obtain ⟨-, -, -, h4⟩ := foldl_scanStep_spec d (allPairs u1 u2) c none
  exact (h4 h).2.2

/-- Every run of the greedy loop partitions each unmatched list: the first
(resp. second) components of the produced pairs together with the returned
unpaired list are a permutation of the input list. -/
lemma pairLoop_perm (f1 f2 s1 s2 : List ℚ) (T : ℚ) :
    ∀ (fuel : ℕ) (u1 u2 : List ℕ), u1.length ≤ fuel →
      ((pairLoop f1 f2 s1 s2 T fuel u1 u2).paired_peaks.map (fun pr => pr.1.1) ++
          (pairLoop f1 f2 s1 s2 T fuel u1 u2).unpaired_peaks1).Perm u1 ∧
      ((pairLoop f1 f2 s1 s2 T fuel u1 u2).paired_peaks.map (fun pr => pr.2.1) ++
          (pairLoop f1 f2 s1 s2 T fuel u1 u2).unpaired_peaks2).Perm u2 := by
  intro fuel
  induction fuel with
  | zero =>
    intro u1 u2 hlen
    have hu1 : u1 = [] := List.eq_nil_of_length_eq_zero (Nat.le_zero.mp hlen)
    subst hu1
    simp [pairLoop]
  | succ n ih =>
    intro u1 u2 hlen
    by_cases hemp : u1 = [] ∨ u2 = []
    · simp [pairLoop, hemp]
    · rcases hfind : (findClosestPair (pairDist f1 f2) u1 u2 (T + 1)).2 with - | ⟨p1, p2⟩
      · simp [pairLoop, hemp, hfind]
      · obtain ⟨hp1, hp2, -, -, -⟩ := findClosestPair_some _ _ _ _ _ hfind
        have hlen' : (u1.erase p1).length ≤ n := by
          rw [List.length_erase_of_mem hp1]
          omega
        obtain ⟨ihA, ihB⟩ := ih (u1.erase p1) (u2.erase p2) hlen'
        have hred : pairLoop f1 f2 s1 s2 T (n + 1) u1 u2 =
            ⟨((p1, f1.getD p1 0, s1.getD p1 0), (p2, f2.getD p2 0, s2.getD p2 0)) ::
                (pairLoop f1 f2 s1 s2 T n (u1.erase p1) (u2.erase p2)).paired_peaks,
              (pairLoop f1 f2 s1 s2 T n (u1.erase p1) (u2.erase p2)).unpaired_peaks1,
              (pairLoop f1 f2 s1 s2 T n (u1.erase p1) (u2.erase p2)).unpaired_peaks2⟩ := by
          rw [pairLoop, if_neg hemp, hfind]
        rw [hred]
        constructor
        · simpa using (ihA.cons p1).trans (List.perm_cons_erase hp1).symm
        · simpa using (ihB.cons p2).trans (List.perm_cons_erase hp2).symm

/-- C1: for every pair of input peak sets with their frequency and PSD
arrays, the pairing result satisfies
`|paired_peaks| + |unpaired_peaks1| = |P1|`,
`|paired_peaks| + |unpaired_peaks2| = |P2|`, the indices drawn from each peak
set (pair components plus that set's unpaired list) are a permutation of that
set, and when the peak sets are duplicate-free every index appears exactly
once, either in a pair or in the corresponding unpaired list. -/
theorem pairPeaks_complete (peaks1 : List ℕ) (freqs1 psd1 : List ℚ)
    (peaks2 : List ℕ) (freqs2 psd2 : List ℚ) :
    (pairPeaks peaks1 freqs1 psd1 peaks2 freqs2 psd2).paired_peaks.length + (pairPeaks peaks1 freqs1 psd1 peaks2 freqs2 psd2).unpaired_peaks1.length = peaks1.length ∧
    (pairPeaks peaks1 freqs1 psd1 peaks2 freqs2 psd2).paired_peaks.length + (pairPeaks peaks1 freqs1 psd1 peaks2 freqs2 psd2).unpaired_peaks2.length = peaks2.length ∧
    ((pairPeaks peaks1 freqs1 psd1 peaks2 freqs2 psd2).paired_peaks.map (fun pr => pr.1.1) ++ (pairPeaks peaks1 freqs1 psd1 peaks2 freqs2 psd2).unpaired_peaks1).Perm peaks1 ∧
    ((pairPeaks peaks1 freqs1 psd1 peaks2 freqs2 psd2).paired_peaks.map (fun pr => pr.2.1) ++ (pairPeaks peaks1 freqs1 psd1 peaks2 freqs2 psd2).unpaired_peaks2).Perm peaks2 ∧
    (peaks1.Nodup → ∀ i ∈ peaks1,
      ((pairPeaks peaks1 freqs1 psd1 peaks2 freqs2 psd2).paired_peaks.map (fun pr => pr.1.1) ++ (pairPeaks peaks1 freqs1 psd1 peaks2 freqs2 psd2).unpaired_peaks1).count i = 1) ∧
    (peaks2.Nodup → ∀ i ∈ peaks2,
      ((pairPeaks peaks1 freqs1 psd1 peaks2 freqs2 psd2).paired_peaks.map (fun pr => pr.2.1) ++ (pairPeaks peaks1 freqs1 psd1 peaks2 freqs2 psd2).unpaired_peaks2).count i = 1) := by
  obtain ⟨hA, hB⟩ := pairLoop_perm freqs1 freqs2 psd1 psd2
    (dynThreshold ((allPairs peaks1 peaks2).map (pairDist freqs1 freqs2)))
    peaks1.length peaks1 peaks2 le_rfl
  have hr1 : ((pairPeaks peaks1 freqs1 psd1 peaks2 freqs2 psd2).paired_peaks.map (fun pr => pr.1.1) ++
      (pairPeaks peaks1 freqs1 psd1 peaks2 freqs2 psd2).unpaired_peaks1).Perm peaks1 := hA
  have hr2 : ((pairPeaks peaks1 freqs1 psd1 peaks2 freqs2 psd2).paired_peaks.map (fun pr => pr.2.1) ++
      (pairPeaks peaks1 freqs1 psd1 peaks2 freqs2 psd2).unpaired_peaks2).Perm peaks2 := hB
  refine ⟨?_, ?_, hr1, hr2, ?_, ?_⟩
  · have := hr1.length_eq
    simpa using this
  · have := hr2.length_eq
    simpa using this
  · intro hnd i hi
    rw [hr1.count_eq]
    exact List.count_eq_one_of_mem hnd hi
  · intro hnd i hi
    rw [hr2.count_eq]
    exact List.count_eq_one_of_mem hnd hi

/-- C1 witness at a concrete input. -/
theorem pairPeaks_complete_witness :
    ([0, 1] : List ℕ).Nodup ∧
    (pairPeaks [0, 1] [1, 2] [1, 1] [] [] []).paired_peaks.length +
        (pairPeaks [0, 1] [1, 2] [1, 1] [] [] []).unpaired_peaks1.length = 2 ∧
    ((pairPeaks [0, 1] [1, 2] [1, 1] [] [] []).paired_peaks.map (fun pr => pr.1.1) ++
        (pairPeaks [0, 1] [1, 2] [1, 1] [] [] []).unpaired_peaks1).count 0 = 1 := by
  have h := pairPeaks_complete [0, 1] [1, 2] [1, 1] [] [] []
  refine ⟨by decide, h.1, h.2.2.2.2.1 (by decide) 0 (by decide)⟩

/-- Every pair the greedy loop records has distance strictly below
`threshold + 1` (the sentinel the source initialises `min_distance` with),
and the recorded frequency/PSD entries are the array values at the indices. -/
lemma pairLoop_paired_dist (f1 f2 s1 s2 : List ℚ) (T : ℚ) :
    ∀ (fuel : ℕ) (u1 u2 : List ℕ),
      ∀ pr ∈ (pairLoop f1 f2 s1 s2 T fuel u1 u2).paired_peaks,
        pairDist f1 f2 (pr.1.1, pr.2.1) < T + 1 ∧
        pr.1.2.1 = f1.getD pr.1.1 0 ∧ pr.2.2.1 = f2.getD pr.2.1 0 := by
  intro fuel
  induction fuel with
  | zero => intro u1 u2 pr hpr; simp [pairLoop] at hpr
  | succ n ih =>
    intro u1 u2 pr hpr
    by_cases hemp : u1 = [] ∨ u2 = []
    · simp [pairLoop, hemp] at hpr
    · rcases hfind : (findClosestPair (pairDist f1 f2) u1 u2 (T + 1)).2 with - | ⟨p1, p2⟩
      · simp [pairLoop, hemp, hfind] at hpr
      · obtain ⟨-, -, -, hlt, -⟩ := findClosestPair_some _ _ _ _ _ hfind
        rw [pairLoop, if_neg hemp, hfind] at hpr
        rcases List.mem_cons.mp hpr with rfl | hpr
        · exact ⟨hlt, rfl, rfl⟩
        · exact ih (u1.erase p1) (u2.erase p2) pr hpr

/-- C2 (amended): at each step the scan returns a globally closest unmatched
pair, and the loop stops as soon as that minimum distance reaches
`threshold + 1` — not `threshold`: the source initialises `min_distance`
with `threshold + 1` and records any strictly smaller distance, so every
recorded pair has frequency distance strictly less than `threshold + 1`
(a pair at distance within `[threshold, threshold + 1)` is still recorded). -/
theorem pairPeaks_greedy_threshold (peaks1 : List ℕ) (freqs1 psd1 : List ℚ)
    (peaks2 : List ℕ) (freqs2 psd2 : List ℚ) :
    (∀ pr ∈ (pairPeaks peaks1 freqs1 psd1 peaks2 freqs2 psd2).paired_peaks,
      pairDist freqs1 freqs2 (pr.1.1, pr.2.1) <
        dynThreshold ((allPairs peaks1 peaks2).map (pairDist freqs1 freqs2)) + 1 ∧
      pr.1.2.1 = freqs1.getD pr.1.1 0 ∧ pr.2.2.1 = freqs2.getD pr.2.1 0) ∧
    (∀ (u1 u2 : List ℕ) (q : ℕ × ℕ),
      (findClosestPair (pairDist freqs1 freqs2) u1 u2
          (dynThreshold ((allPairs peaks1 peaks2).map (pairDist freqs1 freqs2)) + 1)).2 =
          some q →
        pairDist freqs1 freqs2 q <
          dynThreshold ((allPairs peaks1 peaks2).map (pairDist freqs1 freqs2)) + 1 ∧
        ∀ p ∈ allPairs u1 u2, pairDist freqs1 freqs2 q ≤ pairDist freqs1 freqs2 p) ∧
    (∀ (u1 u2 : List ℕ),
      (findClosestPair (pairDist freqs1 freqs2) u1 u2
          (dynThreshold ((allPairs peaks1 peaks2).map (pairDist freqs1 freqs2)) + 1)).2 =
          none →
        ∀ p ∈ allPairs u1 u2,
          dynThreshold ((allPairs peaks1 peaks2).map (pairDist freqs1 freqs2)) + 1 ≤
            pairDist freqs1 freqs2 p) := by
  refine ⟨?_, ?_, ?_⟩
  · intro pr hpr
    exact pairLoop_paired_dist freqs1 freqs2 psd1 psd2
      (dynThreshold ((allPairs peaks1 peaks2).map (pairDist freqs1 freqs2)))
      peaks1.length peaks1 peaks2 pr hpr
  · intro u1 u2 q hq
    obtain ⟨-, -, -, hlt, hmin⟩ := findClosestPair_some _ _ _ _ _ hq
    exact ⟨hlt, hmin⟩
  · intro u1 u2 hnone
    exact findClosestPair_none _ _ _ _ hnone

/-- Concrete evaluation of the pairing on single peaks at frequencies `0`
and `21/2`: the dynamic threshold is `10` and the pair is recorded. -/
lemma pairPeaks_eval_halfway :
    dynThreshold ((allPairs [0] [0]).map (pairDist [0] [21/2])) = 10 ∧
    (pairPeaks [0] [0] [1] [0] [21/2] [1]).paired_peaks =
      [((0, 0, 1), (0, 21/2, 1))] := by
  have hd : (allPairs [0] [0]).map (pairDist [0] [21/2]) = [21/2] := by
    simp [allPairs, pairDist]
    norm_num
  have hperc : ∀ q : ℚ, npPercentile [21/2] q = 21/2 := by
    intro q
    simp [npPercentile, npSort]
  have hT : dynThreshold ((allPairs [0] [0]).map (pairDist [0] [21/2])) = 10 := by
    rw [hd]
    simp [dynThreshold, npMedian, hperc]
    norm_num
  refine ⟨hT, ?_⟩
  have hpd : pairDist [0] [21/2] (0, 0) = 21/2 := by
    norm_num [pairDist]
  have hfind : (findClosestPair (pairDist [0] [21/2]) [0] [0] (10 + 1)).2 =
      some (0, 0) := by
    simp only [findClosestPair, allPairs, List.flatMap_cons, List.map_cons,
      List.map_nil, List.flatMap_nil, List.append_nil, List.foldl_cons,
      List.foldl_nil, scanStep, hpd]
    rw [if_pos (by norm_num : (21 : ℚ)/2 < 10 + 1)]
  rw [pairPeaks, hT]
  rw [show ([0] : List ℕ).length = 1 from rfl]
  rw [pairLoop, if_neg (by simp), hfind]
  norm_num [pairLoop, pairDist]

/-- C2 counterexample: with single peaks at frequencies `0` and `21/2`, the
dynamic threshold is `10`, yet the pair at distance `21/2 ≥ 10` is recorded —
so a recorded pair need not be strictly below the threshold, refuting the
claim as stated. -/
theorem pairPeaks_records_pair_at_threshold :
    dynThreshold ((allPairs [0] [0]).map (pairDist [0] [21/2])) = 10 ∧
    (pairPeaks [0] [0] [1] [0] [21/2] [1]).paired_peaks =
      [((0, 0, 1), (0, 21/2, 1))] ∧
    pairDist [0] [21/2] (0, 0) = 21/2 ∧ ¬ ((21 : ℚ)/2 < 10) := by
  refine ⟨pairPeaks_eval_halfway.1, pairPeaks_eval_halfway.2, ?_, by norm_num⟩
  simp [pairDist]
  norm_num

/-- C2 witness: the amended theorem applied at the same concrete input — the
recorded pair is strictly below `threshold + 1`. -/
theorem pairPeaks_greedy_threshold_witness :
    pairDist [0] [21/2] (0, 0) <
      dynThreshold ((allPairs [0] [0]).map (pairDist [0] [21/2])) + 1 := by
  have h := (pairPeaks_greedy_threshold [0] [0] [1] [0] [21/2] [1]).1
    ((0, 0, 1), (0, 21/2, 1))
  have hmem : ((0, 0, 1), (0, (21 : ℚ)/2, 1)) ∈
      (pairPeaks [0] [0] [1] [0] [21/2] [1]).paired_peaks := by
    rw [pairPeaks_eval_halfway.2]
    exact List.mem_singleton.mpr rfl
  exact (h hmem).1

/-! ### Lemmas about the mechanical-health index -/

/-- A left fold accumulating `+ f x` is the sum of the mapped list. -/
lemma foldl_add_eq_sum {β : Type} (f : β → ℚ) (l : List β) :
    ∀ a : ℚ, l.foldl (fun acc x => acc + f x) a = a + (l.map f).sum := by
  induction l with
  | nil => intro a; simp
  | cons x t ih =>
    intro a
    rw [List.foldl_cons, ih]
    simp [add_assoc]

/-- `npClip x lo hi` stays above `lo` whenever `lo ≤ hi`. -/
lemma npClip_lower (x lo hi : ℚ) (h : lo ≤ hi) : lo ≤ npClip x lo hi :=
  le_min (le_max_right x lo) h

/-- `npClip x lo hi` never exceeds `hi`. -/
lemma npClip_upper (x lo hi : ℚ) : npClip x lo hi ≤ hi :=
  min_le_right _ _

/-- `mhiRanges` lookups for values in `(70, 100]`. -/
lemma mhiLut_eq_excellent (x : ℚ) (h : 70 < npClip x 1 100) :
    mhiLut x = "Excellent mechanical health" := by
  have h2 : npClip x 1 100 ≤ 100 := npClip_upper x 1 100
  have e : mhiMatch (npClip x 1 100) (70, 100, "Excellent mechanical health") = true := by
    simp [mhiMatch, h, h2]
  simp [mhiLut, mhiRanges, List.find?, e]

/-- C3: the mechanical-health index computed by `_compute_mhi` equals
`clip(s * (2/n if n ≥ 2 else 1) - Σ (peak_psd / max_psd) * 30, 0, 100)`
where the sum ranges over all unpaired peaks of both signals; in particular
it always lies in `[0, 100]`, and with 2 paired peaks, no unpaired peaks and
similarity 100 the label is `Excellent mechanical health`.  The hypothesis
`0 < max_psd` restricts to the domain on which the Python division is
defined. -/
theorem computeMhi_formula (s : ℚ) (signal1 signal2 : SignalData)
    (pp : List ((ℕ × ℚ × ℚ) × (ℕ × ℚ × ℚ))) (up1 up2 : List ℕ)
    (hpp : signal1.paired_peaks = some pp)
    (hu1 : signal1.unpaired_peaks = some up1)
    (hu2 : signal2.unpaired_peaks = some up2)
    (hmax : 0 < max (npMax signal1.psd) (npMax signal2.psd)) :
    mhiValue s signal1 signal2 =
      npClip (s * (if 2 ≤ pp.length then 2 / (pp.length : ℚ) else 1) -
        (((up1.map fun p => signal1.psd.getD p 0) ++
            (up2.map fun p => signal2.psd.getD p 0)).map
          (fun v => v / max (npMax signal1.psd) (npMax signal2.psd) * 30)).sum)
        0 100 ∧
    0 ≤ mhiValue s signal1 signal2 ∧ mhiValue s signal1 signal2 ≤ 100 ∧
    (pp.length = 2 → up1 = [] → up2 = [] → s = 100 →
      computeMhi s signal1 signal2 = "Excellent mechanical health") := by
  have hval : mhiValue s signal1 signal2 =
      npClip (s * (if 2 ≤ pp.length then 2 / (pp.length : ℚ) else 1) -
        (((up1.map fun p => signal1.psd.getD p 0) ++
            (up2.map fun p => signal2.psd.getD p 0)).map
          (fun v => v / max (npMax signal1.psd) (npMax signal2.psd) * 30)).sum)
        0 100 := by
    simp only [mhiValue, hpp, hu1, hu2, Option.getD_some, foldl_add_eq_sum,
      zero_add, List.map_append, List.map_map, Function.comp,
      DC_MAX_PEAKS, DC_MAX_UNPAIRED_PEAKS_ALLOWED, Nat.cast_ofNat]
    congr 1
    split_ifs with hz hn hn
    · simp only [List.sum_append, Function.comp_def]
      try ring
    · simp only [List.sum_append, Function.comp_def]
      try ring
    · have h1 : up1 = [] := List.eq_nil_of_length_eq_zero (by omega)
      have h2 : up2 = [] := List.eq_nil_of_length_eq_zero (by omega)
      subst h1
      subst h2
      simp
    · have h1 : up1 = [] := List.eq_nil_of_length_eq_zero (by omega)
      have h2 : up2 = [] := List.eq_nil_of_length_eq_zero (by omega)
      subst h1
      subst h2
      simp
  refine ⟨hval, ?_, ?_, ?_⟩
  · simp only [mhiValue]
    apply npClip_lower
    norm_num
  · simp only [mhiValue]
    apply npClip_upper
  · intro hlen h1 h2 hs
    subst h1
    subst h2
    subst hs
    have hv : mhiValue 100 signal1 signal2 = 100 := by
      rw [hval, hlen]
      norm_num [npClip]
    rw [computeMhi, hv]
    exact mhiLut_eq_excellent 100 (by norm_num [npClip])

/-- A concrete signal with two paired peaks and no unpaired peaks, used as
the C3 witness input. -/
def exSignalTwoPeaks : SignalData :=
  { freqs := [50, 80], psd := [1, 1], peaks := [0, 1],
    paired_peaks := some [((0, 50, 1), (0, 50, 1)), ((1, 80, 1), (1, 80, 1))],
    unpaired_peaks := some [] }

/-- C3 witness at a concrete input: two signals with two paired peaks, no
unpaired peaks and similarity 100. -/
theorem computeMhi_formula_witness :
    0 < max (npMax exSignalTwoPeaks.psd) (npMax exSignalTwoPeaks.psd) ∧
    computeMhi 100 exSignalTwoPeaks exSignalTwoPeaks =
      "Excellent mechanical health" := by
  have hmax : 0 < max (npMax exSignalTwoPeaks.psd) (npMax exSignalTwoPeaks.psd) := by
    norm_num [npMax, exSignalTwoPeaks]
  refine ⟨hmax, ?_⟩
  exact (computeMhi_formula 100 exSignalTwoPeaks exSignalTwoPeaks _ [] []
    rfl rfl rfl hmax).2.2.2 rfl rfl rfl rfl

/-- C9: the MHI-to-label lookup is total on `[0, 100]`: exactly one of the
six ranges matches the clamped value, the returned label is one of the six
(never the `Unknown` fallback), and `0` — clamped to `1` — falls into the
bottom `Mechanical issue detected` range. -/
theorem mhiLut_total (x : ℚ) (h0 : 0 ≤ x) (h100 : x ≤ 100) :
    mhiRanges.countP (mhiMatch (npClip x 1 100)) = 1 ∧
    mhiLut x ≠ "Unknown mechanical health" ∧
    mhiLut x ∈ mhiRanges.map (fun r => r.2.2) ∧
    (x = 0 → mhiLut x = "Mechanical issue detected") := by
  have hv1 : (1 : ℚ) ≤ npClip x 1 100 := npClip_lower x 1 100 (by norm_num)
  have hv2 : npClip x 1 100 ≤ 100 := npClip_upper x 1 100
  have key : mhiRanges.countP (mhiMatch (npClip x 1 100)) = 1 ∧
      ∃ r ∈ mhiRanges,
        List.find? (mhiMatch (npClip x 1 100)) mhiRanges = some r := by
    set v := npClip x 1 100 with hv
    rcases lt_or_le 70 v with h70 | hle70
    · refine ⟨?_, (70, 100, "Excellent mechanical health"), by simp [mhiRanges], ?_⟩
      · simp [mhiRanges, mhiMatch, List.countP_cons, h70, hv2,
          show ¬ v ≤ 70 by linarith, show ¬ v ≤ 55 by linarith,
          show ¬ v ≤ 45 by linarith, show ¬ v ≤ 30 by linarith,
          show ¬ v ≤ 15 by linarith]
      · simp [mhiRanges, mhiMatch, List.find?, h70, hv2]
    rcases lt_or_le 55 v with h55 | hle55
    · refine ⟨?_, (55, 70, "Good mechanical health"), by simp [mhiRanges], ?_⟩
      · simp [mhiRanges, mhiMatch, List.countP_cons, h55, hle70,
          show ¬ 70 < v by linarith, show ¬ v ≤ 55 by linarith,
          show ¬ v ≤ 45 by linarith, show ¬ v ≤ 30 by linarith,
          show ¬ v ≤ 15 by linarith]
      · simp [mhiRanges, mhiMatch, List.find?, h55, hle70, show ¬ 70 < v by linarith]
    rcases lt_or_le 45 v with h45 | hle45
    · refine ⟨?_, (45, 55, "Acceptable mechanical health"), by simp [mhiRanges], ?_⟩
      · simp [mhiRanges, mhiMatch, List.countP_cons, h45, hle55,
          show ¬ 70 < v by linarith, show ¬ 55 < v by linarith,
          show ¬ v ≤ 45 by linarith, show ¬ v ≤ 30 by linarith,
          show ¬ v ≤ 15 by linarith]
      · simp [mhiRanges, mhiMatch, List.find?, h45, hle55,
          show ¬ 70 < v by linarith, show ¬ 55 < v by linarith]
    rcases lt_or_le 30 v with h30 | hle30
    · refine ⟨?_, (30, 45, "Potential signs of a mechanical issue"),
        by simp [mhiRanges], ?_⟩
      · simp [mhiRanges, mhiMatch, List.countP_cons, h30, hle45,
          show ¬ 70 < v by linarith, show ¬ 55 < v by linarith,
          show ¬ 45 < v by linarith, show ¬ v ≤ 30 by linarith,
          show ¬ v ≤ 15 by linarith]
      · simp [mhiRanges, mhiMatch, List.find?, h30, hle45,
          show ¬ 70 < v by linarith, show ¬ 55 < v by linarith,
          show ¬ 45 < v by linarith]
    rcases lt_or_le 15 v with h15 | hle15
    · refine ⟨?_, (15, 30, "Likely a mechanical issue"), by simp [mhiRanges], ?_⟩
      · simp [mhiRanges, mhiMatch, List.countP_cons, h15, hle30,
          show ¬ 70 < v by linarith, show ¬ 55 < v by linarith,
          show ¬ 45 < v by linarith, show ¬ 30 < v by linarith,
          show ¬ v ≤ 15 by linarith]
      · simp [mhiRanges, mhiMatch, List.find?, h15, hle30,
          show ¬ 70 < v by linarith, show ¬ 55 < v by linarith,
          show ¬ 45 < v by linarith, show ¬ 30 < v by linarith]
    · refine ⟨?_, (0, 15, "Mechanical issue detected"), by simp [mhiRanges], ?_⟩
      · simp [mhiRanges, mhiMatch, List.countP_cons, hle15,
          show (0 : ℚ) < v by linarith,
          show ¬ 70 < v by linarith, show ¬ 55 < v by linarith,
          show ¬ 45 < v by linarith, show ¬ 30 < v by linarith,
          show ¬ 15 < v by linarith]
      · simp [mhiRanges, mhiMatch, List.find?, hle15,
          show (0 : ℚ) < v by linarith,
          show ¬ 70 < v by linarith, show ¬ 55 < v by linarith,
          show ¬ 45 < v by linarith, show ¬ 30 < v by linarith,
          show ¬ 15 < v by linarith]
  obtain ⟨hcnt, r, hrmem, hfind⟩ := key
  have hlut : mhiLut x = r.2.2 := by
    simp [mhiLut, hfind]
  refine ⟨hcnt, ?_, ?_, ?_⟩
  · rw [hlut]
    simp only [mhiRanges, List.mem_cons, List.mem_singleton] at hrmem
    rcases hrmem with rfl | rfl | rfl | rfl | rfl | rfl | h
    all_goals first
      | (intro hc; exact absurd hc (by decide))
      | (exact absurd h (by simp))
  · rw [hlut]
    exact List.mem_map.mpr ⟨r, hrmem, rfl⟩
  · intro hx
    subst hx
    norm_num [mhiLut, npClip, mhiRanges, mhiMatch, List.find?]

/-- C9 witness: the theorem applied at `x = 50` (and the label there). -/
theorem mhiLut_total_witness :
    mhiRanges.countP (mhiMatch (npClip 50 1 100)) = 1 ∧
    mhiLut 50 ≠ "Unknown mechanical health" ∧
    mhiLut 50 ∈ mhiRanges.map (fun r => r.2.2) := by
  have h := mhiLut_total 50 (by norm_num) (by norm_num)
  exact ⟨h.1, h.2.1, h.2.2.1⟩

/-! ### Lemmas about the belts orchestration and its error message -/

/-- `msg` mentions `sub`: `sub` occurs as a substring. -/
def StrMentions (msg sub : String) : Prop :=
  ∃ a b, msg = a ++ sub ++ b

/-- A substring of the suffix is a substring of an append. -/
lemma strMentions_append_left (p m sub : String) (h : StrMentions m sub) :
    StrMentions (p ++ m) sub := by
  obtain ⟨a, b, rfl⟩ := h
  exact ⟨p ++ a, b, by simp [String.append_assoc]⟩

/-- A substring of the prefix is a substring of an append. -/
lemma strMentions_append_right (m q sub : String) (h : StrMentions m sub) :
    StrMentions (m ++ q) sub := by
  obtain ⟨a, b, rfl⟩ := h
  exact ⟨a, b ++ q, by simp [String.append_assoc]⟩

/-- Every element of the list occurs in its Python `repr`. -/
lemma pyListReprAux_mentions : ∀ (l : List String), ∀ s ∈ l,
    StrMentions (pyListReprAux l) s := by
  intro l
  induction l with
  | nil => intro s hs; cases hs
  | cons s0 rest ih =>
    intro s hs
    rcases List.mem_cons.mp hs with rfl | hs
    · cases rest with
      | nil => exact ⟨pyQuote, pyQuote, rfl⟩
      | cons r t =>
        refine ⟨pyQuote, pyQuote ++ ", " ++ pyListReprAux (r :: t), ?_⟩
        show pyQuote ++ s ++ pyQuote ++ ", " ++ pyListReprAux (r :: t) = _
        simp [String.append_assoc]
    · cases rest with
      | nil => cases hs
      | cons r t =>
        have := ih s hs
        exact strMentions_append_left (pyQuote ++ s0 ++ pyQuote ++ ", ") _ s this

/-- Every listed name occurs in the Python list `repr`. -/
lemma pyListRepr_mentions (l : List String) (s : String) (h : s ∈ l) :
    StrMentions (pyListRepr l) s := by
  unfold pyListRepr
  exact strMentions_append_right _ _ _
    (strMentions_append_left _ _ _ (pyListReprAux_mentions l s h))

/-- The cardinality message mentions the required count `2`, the actual
count, and every measurement name. -/
lemma cardinalityMsg_mentions (n : ℕ) (names : List String) :
    StrMentions (cardinalityMsg n names) "2" ∧
    StrMentions (cardinalityMsg n names) (toString n) ∧
    ∀ s ∈ names, StrMentions (cardinalityMsg n names) s := by
  refine ⟨?_, ?_, ?_⟩
  · refine ⟨"This tool needs ",
      " measurements to work with (one for each belt)! Currently, it has " ++
        toString n ++ " measurements named " ++ pyListRepr names, ?_⟩
    show cardinalityMsg n names =
      "This tool needs " ++ "2" ++
        (" measurements to work with (one for each belt)! Currently, it has " ++
          toString n ++ " measurements named " ++ pyListRepr names)
    rw [cardinalityMsg]
    rw [show ("This tool needs 2 measurements to work with (one for each belt)! Currently, it has " : String) =
      "This tool needs " ++ "2" ++
        " measurements to work with (one for each belt)! Currently, it has " from rfl]
    simp [String.append_assoc]
    conv_rhs => rw [← String.append_assoc]
    rfl
  · refine ⟨"This tool needs 2 measurements to work with (one for each belt)! Currently, it has ",
      " measurements named " ++ pyListRepr names, ?_⟩
    rw [cardinalityMsg]
    simp [String.append_assoc]
  · intro s hs
    have := pyListRepr_mentions names s hs
    exact strMentions_append_left _ _ _ this

/-- C8 (amended): the belts computation raises its cardinality `ValueError`
if and only if the number of measurements differs from 2, and that error
message mentions the required count `2`, the actual count, and every
measurement name; no result is returned on failure (the computation is an
`Except` value).  Errors of other kinds (e.g. an `IndexError` for a
measurement with `samples = None`) can still occur when the count is 2, so
the claim's "raises an error iff count ≠ 2" holds only for the cardinality
error. -/
theorem beltsCompute_cardinality {α : Type} (signalOf : α → SignalData)
    (pearson : List ℚ → List ℚ → ℚ) (kinematics : Option String) (max_freq : ℚ)
    (max_scale : Option ℤ) (st_version : String)
    (measurements : List (Measurement α)) :
    ((∃ msg, beltsCompute signalOf pearson kinematics max_freq max_scale
        st_version measurements = .error (.valueError msg)) ↔
      measurements.length ≠ 2) ∧
    (measurements.length ≠ 2 →
      beltsCompute signalOf pearson kinematics max_freq max_scale st_version
          measurements =
        .error (.valueError (cardinalityMsg measurements.length
          (measurements.map fun m => m.name))) ∧
      StrMentions (cardinalityMsg measurements.length
        (measurements.map fun m => m.name)) "2" ∧
      StrMentions (cardinalityMsg measurements.length
        (measurements.map fun m => m.name)) (toString measurements.length) ∧
      ∀ m ∈ measurements,
        StrMentions (cardinalityMsg measurements.length
          (measurements.map fun m => m.name)) m.name) := by
  constructor
  · constructor
    · rintro ⟨msg, hmsg⟩ h2
      rw [beltsCompute, dif_pos h2] at hmsg
      dsimp only at hmsg
      by_cases hkin : kinematics ∈ kinematicsSet
      · simp only [if_pos hkin] at hmsg
        split at hmsg
        · simp_all
        split at hmsg
        · simp_all
        split at hmsg
        · simp_all
        split at hmsg
        · simp_all
        · simp_all
      · simp only [if_neg hkin] at hmsg
        split at hmsg
        · simp_all
        split at hmsg
        · simp_all
        split at hmsg
        · simp_all
        split at hmsg
        · simp_all
        · simp_all
    · intro hne
      rw [beltsCompute, dif_neg hne]
      exact ⟨_, rfl⟩
  · intro hne
    obtain ⟨m1, m2, m3⟩ :=
      cardinalityMsg_mentions measurements.length (measurements.map fun m => m.name)
    refine ⟨by rw [beltsCompute, dif_neg hne], m1, m2, fun m hm => ?_⟩
    exact m3 m.name (List.mem_map.mpr ⟨m, hm, rfl⟩)

/-- C8 counterexample: with exactly 2 measurements, one of which has
`samples = None`, the belts computation still raises (an `IndexError`, not
the cardinality error) — refuting "raises an error if and only if the number
of measurements differs from 2". -/
theorem beltsCompute_error_with_two_measurements :
    beltsCompute (fun _ : Unit => { freqs := [0], psd := [1], peaks := [] })
        (fun _ _ => 1) none 200 none "v1"
        [⟨"belt_A", some ()⟩, ⟨"belt_B", none⟩] = .error .indexError ∧
    ([⟨"belt_A", some ()⟩, ⟨"belt_B", none⟩] : List (Measurement Unit)).length = 2 := by
  exact ⟨rfl, rfl⟩

/-- C8 witness: the amended theorem at 3 measurements — the cardinality
error is raised, and its message mentions `2` and each of the 3 names. -/
theorem beltsCompute_cardinality_witness :
    beltsCompute (fun _ : Unit => { freqs := [0], psd := [1], peaks := [] })
        (fun _ _ => 1) none 200 none "v1"
        [⟨"belt_A", some ()⟩, ⟨"belt_B", some ()⟩, ⟨"belt_C", some ()⟩] =
      .error (.valueError (cardinalityMsg 3 ["belt_A", "belt_B", "belt_C"])) ∧
    StrMentions (cardinalityMsg 3 ["belt_A", "belt_B", "belt_C"]) "2" ∧
    StrMentions (cardinalityMsg 3 ["belt_A", "belt_B", "belt_C"]) "3" ∧
    StrMentions (cardinalityMsg 3 ["belt_A", "belt_B", "belt_C"]) "belt_A" ∧
    StrMentions (cardinalityMsg 3 ["belt_A", "belt_B", "belt_C"]) "belt_B" ∧
    StrMentions (cardinalityMsg 3 ["belt_A", "belt_B", "belt_C"]) "belt_C" := by
  have h := (beltsCompute_cardinality
    (fun _ : Unit => { freqs := [0], psd := [1], peaks := [] })
    (fun _ _ => 1) none 200 none "v1"
    [⟨"belt_A", some ()⟩, ⟨"belt_B", some ()⟩, ⟨"belt_C", some ()⟩]).2
    (by simp)
  obtain ⟨he, h2, hn, hnames⟩ := h
  refine ⟨he, h2, hn, ?_, ?_, ?_⟩
  · exact hnames ⟨"belt_A", some ()⟩ (by simp)
  · exact hnames ⟨"belt_B", some ()⟩ (by simp)
  · exact hnames ⟨"belt_C", some ()⟩ (by simp)

/-- C5: the belts computation filters out measurements whose `samples` is
`None` when building `datas`, but then indexes `datas[1]` unconditionally,
so with 2 measurements one of which has `samples = None` it fails with an
out-of-bounds access instead of completing (the static-frequency
computation's `datas[0]` fails the same way when its only measurement has
`samples = None`), contradicting the spec's tolerance requirement. -/
theorem beltsCompute_crashes_on_none_samples :
    beltsCompute (fun _ : Unit => { freqs := [0], psd := [1], peaks := [] })
        (fun _ _ => 1) (some "corexy") 200 none "v1"
        [⟨"belt_B", none⟩, ⟨"belt_A", some ()⟩] = .error .indexError ∧
    ([⟨"belt_B", none⟩, ⟨"belt_A", some ()⟩] : List (Measurement Unit)).length = 2 ∧
    staticFrequencyCompute (fun _ : Unit => ()) none none 200 none "v1"
        [⟨"m_x", none⟩] = .error .indexError := by
  exact ⟨rfl, rfl, rfl⟩

/-- C10: when the belts computation succeeds, the similarity factor and MHI
are set exactly when the kinematics is one of `limited_corexy`, `corexy`,
`limited_corexz`, `corexz` (membership of `None` is false); for every other
kinematics both are `None`, while the remaining result fields are still
populated (pairing data present in both signals, inputs carried through). -/
theorem beltsCompute_kinematics_gating {α : Type} (signalOf : α → SignalData)
    (pearson : List ℚ → List ℚ → ℚ) (kinematics : Option String) (max_freq : ℚ)
    (max_scale : Option ℤ) (st_version : String)
    (measurements : List (Measurement α)) (r : BeltsResult α)
    (hr : beltsCompute signalOf pearson kinematics max_freq max_scale
      st_version measurements = .ok r) :
    (kinematics ∈ kinematicsSet →
      r.similarity_factor.isSome ∧ r.mhi.isSome) ∧
    (kinematics ∉ kinematicsSet →
      r.similarity_factor = none ∧ r.mhi = none) ∧
    r.signal1.paired_peaks.isSome ∧ r.signal1.unpaired_peaks.isSome ∧
    r.signal2.paired_peaks.isSome ∧ r.signal2.unpaired_peaks.isSome ∧
    r.kinematics = kinematics ∧ r.max_freq = max_freq ∧
    r.max_scale = max_scale ∧ r.measurements = measurements := by
  by_cases h2 : measurements.length = 2
  · rw [beltsCompute, dif_pos h2] at hr
    dsimp only at hr
    by_cases hkin : kinematics ∈ kinematicsSet
    · simp only [if_pos hkin] at hr
      split at hr
      · cases hr
      split at hr
      · cases hr
      split at hr
      · cases hr
      split at hr
      · cases hr
      injection hr with hr
      subst hr
      simp [hkin]
    · simp only [if_neg hkin] at hr
      split at hr
      · cases hr
      split at hr
      · cases hr
      split at hr
      · cases hr
      split at hr
      · cases hr
      injection hr with hr
      subst hr
      simp [hkin]
  · rw [beltsCompute, dif_neg h2] at hr
    cases hr

/-- The belts result of the C10 witness run (computed by hand; the `rfl`
in the witness checks it). -/
def exCartesianResult : BeltsResult Unit :=
  { metadata := { title := "RELATIVE BELTS CALIBRATION TOOL", version := "v1" },
    measurements := [⟨"belt_A", some ()⟩, ⟨"belt_B", some ()⟩],
    signal1 := { freqs := [0], psd := [1], peaks := [],
                 paired_peaks := some [], unpaired_peaks := some [] },
    signal2 := { freqs := [0], psd := [1], peaks := [],
                 paired_peaks := some [], unpaired_peaks := some [] },
    signal1_belt := "A (axis 1,-1)", signal2_belt := "B (axis 1, 1)",
    kinematics := some "cartesian", max_freq := 200, max_scale := none,
    similarity_factor := none, mhi := none }

/-- C10 witness: a successful run with `kinematics = "cartesian"` (not in
the symmetric set) has `similarity_factor = None` and `mhi = None`. -/
theorem beltsCompute_kinematics_gating_witness :
    (some "cartesian" ∉ kinematicsSet) ∧
    beltsCompute (fun _ : Unit => { freqs := [0], psd := [1], peaks := [] })
        (fun _ _ => 1) (some "cartesian") 200 none "v1"
        [⟨"belt_A", some ()⟩, ⟨"belt_B", some ()⟩] = .ok exCartesianResult ∧
    exCartesianResult.similarity_factor = none ∧
    exCartesianResult.mhi = none := by
  have hnotin : (some "cartesian" : Option String) ∉ kinematicsSet := by decide
  have he : beltsCompute (fun _ : Unit => { freqs := [0], psd := [1], peaks := [] })
      (fun _ _ => 1) (some "cartesian") 200 none "v1"
      [⟨"belt_A", some ()⟩, ⟨"belt_B", some ()⟩] = .ok exCartesianResult := rfl
  obtain ⟨hsim, hmhi⟩ :=
    (beltsCompute_kinematics_gating _ _ _ _ _ _ _ _ he).2.1 hnotin
  exact ⟨hnotin, he, hsim, hmhi⟩

/-! ### Shaper claims -/

/-- C4 (amended): the shaper calibration's returned choice name and candidate
list come from the first `find_best_shaper` pass (the one with the user's
smoothing constraint); a second pass at `MIN_SMOOTHING = 0.001` is executed
but its result is a dead local — any oracle that agrees with the first-pass
call produces an identical outcome, whatever its second pass returns, and the
outcome carries `fr`, `zeta`, `compat = false` and no tradeoff data. -/
theorem calibrateShaper_first_pass_only {γ : Type}
    (find_best_shaper g : Option ℚ → String × List KShaper) (calib_data : γ)
    (fr zeta : ℚ) (max_smoothing : Option ℚ)
    (hagree : g max_smoothing = find_best_shaper max_smoothing) :
    (calibrateShaper find_best_shaper calib_data fr zeta max_smoothing).shaper_choice_name =
      (find_best_shaper max_smoothing).1 ∧
    (calibrateShaper find_best_shaper calib_data fr zeta max_smoothing).shapers =
      (find_best_shaper max_smoothing).2 ∧
    (calibrateShaper find_best_shaper calib_data fr zeta max_smoothing).shapers_tradeoff_data =
      none ∧
    (calibrateShaper find_best_shaper calib_data fr zeta max_smoothing).fr = fr ∧
    (calibrateShaper find_best_shaper calib_data fr zeta max_smoothing).zeta = zeta ∧
    (calibrateShaper find_best_shaper calib_data fr zeta max_smoothing).compat = false ∧
    calibrateShaper g calib_data fr zeta max_smoothing =
      calibrateShaper find_best_shaper calib_data fr zeta max_smoothing := by
  refine ⟨rfl, rfl, rfl, rfl, rfl, rfl, ?_⟩
  simp [calibrateShaper, hagree]

/-- C4 witness: the amended theorem at a concrete oracle. -/
theorem calibrateShaper_first_pass_only_witness :
    (calibrateShaper (fun _ => ("zv", [])) () 50 (1/10) none).shaper_choice_name =
      "zv" ∧
    calibrateShaper (fun _ => ("zv", [])) () 50 (1/10) none =
      calibrateShaper (fun _ => ("zv", [])) () 50 (1/10) none := by
  have h := calibrateShaper_first_pass_only (fun _ => ("zv", []))
    (fun _ => ("zv", [])) () 50 (1/10) none rfl
  exact ⟨h.1, h.2.2.2.2.2.2⟩

/-- C4 counterexample: two oracles that agree on the first pass but return
different candidate lists for the `MIN_SMOOTHING` second pass yield
*identical* calibration outcomes — the second pass's per-shaper `max_accel`
values are not reported in the returned result, refuting the claim that they
are "reported alongside". -/
theorem calibrateShaper_discards_second_pass :
    calibrateShaper (fun _ => ("zv", [])) () 50 (1/10) none =
      calibrateShaper
        (fun o => if o.isSome then ("mzv", [⟨"mzv", 40, 1/50, 1/5, 9000, []⟩]) else ("zv", []))
        () 50 (1/10) none ∧
    (fun (_ : Option ℚ) => (("zv", []) : String × List KShaper)) (some MIN_SMOOTHING) ≠
      (fun o => if o.isSome then ("mzv", [⟨"mzv", 40, 1/50, 1/5, 9000, []⟩]) else ("zv", []))
        (some MIN_SMOOTHING) := by
  constructor
  · rfl
  · decide

/-- Behaviour of the performance-selection fold: the running best
acceleration never decreases, the final state either is the initial one or
records a qualifying shaper (vibration below the cap, strictly better
acceleration than the start), and the final acceleration dominates every
qualifying shaper of the list. -/
lemma foldl_perfStep_spec (l : List KShaper) :
    ∀ st0 : PerfState,
      st0.perf_shaper_accel ≤ (l.foldl perfStep st0).perf_shaper_accel ∧
      (l.foldl perfStep st0 = st0 ∨
        ∃ s ∈ l, (l.foldl perfStep st0).perf_shaper_choice = some s.name ∧
          (l.foldl perfStep st0).perf_shaper_accel = s.max_accel ∧
          (l.foldl perfStep st0).perf_shaper_freq = some s.freq ∧
          s.vibrs * 100 < MAX_VIBRATIONS ∧
          st0.perf_shaper_accel < s.max_accel) ∧
      (∀ s ∈ l, s.vibrs * 100 < MAX_VIBRATIONS →
        s.max_accel ≤ (l.foldl perfStep st0).perf_shaper_accel) := by
  induction l with
  | nil => intro st0; simp
  | cons s0 t ih =>
    intro st0
    rw [List.foldl_cons]
    by_cases h : st0.perf_shaper_accel < s0.max_accel ∧ s0.vibrs * 100 < MAX_VIBRATIONS
    · rw [show perfStep st0 s0 =
        ⟨some s0.name, s0.max_accel, some s0.freq⟩ by simp [perfStep, h]]
      obtain ⟨ih1, ih2, ih3⟩ := ih ⟨some s0.name, s0.max_accel, some s0.freq⟩
      refine ⟨le_trans (le_of_lt h.1) ih1, ?_, ?_⟩
      · rcases ih2 with he | ⟨s, hs, e1, e2, e3, e4, e5⟩
        · exact Or.inr ⟨s0, List.mem_cons_self s0 t, by rw [he], by rw [he], by rw [he],
            h.2, h.1⟩
        · exact Or.inr ⟨s, List.mem_cons_of_mem _ hs, e1, e2, e3, e4,
            lt_of_lt_of_le h.1 (le_of_lt e5)⟩
      · intro s hs hvib
        rcases List.mem_cons.mp hs with rfl | hs
        · exact ih1
        · exact ih3 s hs hvib
    · rw [show perfStep st0 s0 = st0 by simp [perfStep, h]]
      obtain ⟨ih1, ih2, ih3⟩ := ih st0
      refine ⟨ih1, ?_, ?_⟩
      · rcases ih2 with he | ⟨s, hs, rest⟩
        · exact Or.inl he
        · exact Or.inr ⟨s, List.mem_cons_of_mem _ hs, rest⟩
      · intro s hs hvib
        rcases List.mem_cons.mp hs with rfl | hs
        · have : ¬ st0.perf_shaper_accel < s.max_accel := fun hc => h ⟨hc, hvib⟩
          exact le_trans (not_lt.mp this) ih1
        · exact ih3 s hs hvib

/-- C6 (amended): the performance-oriented shaper selection picks, among the
candidates with residual vibration fraction strictly below `0.05`
(`vibrs * 100 < 5`) and positive `max_accel`, one with the highest
`max_accel`; it may coincide with the nominal (Klipper) choice, and it is
reported as a second shaper choice only when it is distinct from the nominal
choice and its `max_accel` is at least the nominal one's. -/
theorem perfShaper_selection (k_shaper_choice : String) (shapers : List KShaper)
    (kfreq kaccel : ℚ)
    (hk : klipperShaperData k_shaper_choice shapers = some (kfreq, kaccel)) :
    (∀ nm, (perfSelect shapers).perf_shaper_choice = some nm →
      (∃ s ∈ shapers, s.name = nm ∧
        s.max_accel = (perfSelect shapers).perf_shaper_accel ∧
        s.vibrs * 100 < MAX_VIBRATIONS ∧ 0 < s.max_accel) ∧
      ∀ s ∈ shapers, s.vibrs * 100 < MAX_VIBRATIONS →
        s.max_accel ≤ (perfSelect shapers).perf_shaper_accel) ∧
    ((perfSelect shapers).perf_shaper_choice = none →
      ∀ s ∈ shapers, s.vibrs * 100 < MAX_VIBRATIONS → s.max_accel ≤ 0) ∧
    (∃ l, shaperChoices k_shaper_choice shapers = .ok l ∧
      ((∃ pc, (perfSelect shapers).perf_shaper_choice = some pc ∧
          pc ≠ k_shaper_choice ∧ kaccel ≤ (perfSelect shapers).perf_shaper_accel ∧
          l = [pyUpper k_shaper_choice, pyUpper pc]) ∨
        (l = [pyUpper k_shaper_choice] ∧
          ¬ ∃ pc, (perfSelect shapers).perf_shaper_choice = some pc ∧
            pc ≠ k_shaper_choice ∧
            kaccel ≤ (perfSelect shapers).perf_shaper_accel))) := by
  obtain ⟨h1, h2, h3⟩ := foldl_perfStep_spec shapers
    { perf_shaper_choice := none, perf_shaper_accel := 0, perf_shaper_freq := none }
  have hps : shapers.foldl perfStep
      { perf_shaper_choice := none, perf_shaper_accel := 0, perf_shaper_freq := none } =
      perfSelect shapers := rfl
  rw [hps] at h1 h2 h3
  have hchoices : shaperChoices k_shaper_choice shapers =
      .ok (match (perfSelect shapers).perf_shaper_choice with
        | some pc =>
          if pc ≠ k_shaper_choice ∧
              kaccel ≤ (perfSelect shapers).perf_shaper_accel then
            [pyUpper k_shaper_choice, pyUpper pc]
          else [pyUpper k_shaper_choice]
        | none => [pyUpper k_shaper_choice]) := by
    rw [shaperChoices, hk]
  refine ⟨?_, ?_, ?_⟩
  · intro nm hnm
    rcases h2 with he | ⟨s, hs, e1, e2, e3, e4, e5⟩
    · rw [he] at hnm
      cases hnm
    · rw [e1] at hnm
      injection hnm with hnm
      subst hnm
      exact ⟨⟨s, hs, rfl, e2.symm, e4, by simpa using e5⟩, h3⟩
  · intro hnone
    rcases h2 with he | ⟨s, hs, e1, e2, e3, e4, e5⟩
    · intro s hs hvib
      have hb := h3 s hs hvib
      rw [he] at hb
      simpa using hb
    · rw [e1] at hnone
      cases hnone
  · rcases hc : (perfSelect shapers).perf_shaper_choice with - | pc
    · refine ⟨[pyUpper k_shaper_choice], ?_, Or.inr ⟨rfl, ?_⟩⟩
      · rw [hchoices, hc]
      · rintro ⟨pc, hpc, -, -⟩
        cases hpc
    · by_cases hcond : pc ≠ k_shaper_choice ∧
        kaccel ≤ (perfSelect shapers).perf_shaper_accel
      · refine ⟨[pyUpper k_shaper_choice, pyUpper pc], ?_,
          Or.inl ⟨pc, rfl, hcond.1, hcond.2, rfl⟩⟩
        rw [hchoices, hc]
        simp only [if_pos hcond]
      · refine ⟨[pyUpper k_shaper_choice], ?_, Or.inr ⟨rfl, ?_⟩⟩
        · rw [hchoices, hc]
          simp only [if_neg hcond]
        · rintro ⟨pc2, hpc2, hne, hge⟩
          injection hpc2 with hpc2
          subst hpc2
          exact hcond ⟨hne, hge⟩

/-- C6 witness: the amended theorem at a concrete candidate list. -/
theorem perfShaper_selection_witness :
    klipperShaperData "zv" [⟨"zv", 50, 1/100, 1/10, 5000, []⟩] = some (50, 5000) ∧
    shaperChoices "zv" [⟨"zv", 50, 1/100, 1/10, 5000, []⟩] = .ok [pyUpper "zv"] := by
  have hk : klipperShaperData "zv" [⟨"zv", 50, 1/100, 1/10, 5000, []⟩] =
      some (50, 5000) := rfl
  obtain ⟨-, -, l, hl, hshape⟩ :=
    perfShaper_selection "zv" [⟨"zv", 50, 1/100, 1/10, 5000, []⟩] 50 5000 hk
  rcases hshape with ⟨pc, hpc, hne, -, rfl⟩ | ⟨rfl, -⟩
  · exfalso
    have hsel : (perfSelect [⟨"zv", 50, 1/100, 1/10, 5000, []⟩]).perf_shaper_choice =
        some "zv" := by
      norm_num [perfSelect, perfStep, MAX_VIBRATIONS]
    rw [hsel] at hpc
    injection hpc with hpc
    exact hne hpc.symm
  · exact ⟨hk, hl⟩

/-- C6 counterexample: with a single candidate that is both the Klipper
choice and the best low-vibration performer, the performance pick equals the
nominal choice — refuting "the picked candidate is distinct from the nominal
(Klipper) choice" — and only one recommendation is reported. -/
theorem perfShaper_not_distinct :
    (perfSelect [⟨"zv", 50, 1/100, 1/10, 5000, []⟩]).perf_shaper_choice =
      some "zv" ∧
    shaperChoices "zv" [⟨"zv", 50, 1/100, 1/10, 5000, []⟩] = .ok ["ZV"] := by
  have hsel : (perfSelect [⟨"zv", 50, 1/100, 1/10, 5000, []⟩]).perf_shaper_choice =
      some "zv" := by
    norm_num [perfSelect, perfStep, MAX_VIBRATIONS]
  refine ⟨hsel, ?_⟩
  have hchoices : shaperChoices "zv" [⟨"zv", 50, 1/100, 1/10, 5000, []⟩] =
      .ok (match (perfSelect [⟨"zv", 50, 1/100, 1/10, 5000, []⟩]).perf_shaper_choice with
        | some pc =>
          if pc ≠ "zv" ∧
              5000 ≤ (perfSelect [⟨"zv", 50, 1/100, 1/10, 5000, []⟩]).perf_shaper_accel then
            [pyUpper "zv", pyUpper pc]
          else [pyUpper "zv"]
        | none => [pyUpper "zv"]) := by
    rw [shaperChoices, show klipperShaperData "zv" [⟨"zv", 50, 1/100, 1/10, 5000, []⟩] =
      some (50, 5000) from rfl]
  rw [hchoices, hsel]
  simp only [if_neg (by simp : ¬ (("zv" : String) ≠ "zv" ∧
    (5000 : ℚ) ≤ (perfSelect [⟨"zv", 50, 1/100, 1/10, 5000, []⟩]).perf_shaper_accel))]
  rfl

/-! ### Scaling monotonicity of the pairing (C7) -/

/-- Multiplying both sides by a positive rational preserves strict order. -/
lemma mul_lt_mul_left_rat (k a b : ℚ) (hk : 0 < k) : k * a < k * b ↔ a < b := by
  constructor <;> intro h <;> nlinarith

/-- `getD` with default `0` commutes with scaling every entry. -/
lemma getD_map_mul (k : ℚ) : ∀ (l : List ℚ) (i : ℕ),
    (l.map (fun x => k * x)).getD i 0 = k * l.getD i 0 := by
  intro l
  induction l with
  | nil => intro i; simp
  | cons a t ih =>
    intro i
    cases i with
    | zero => simp
    | succ j => simpa using ih j

/-- Scaling all frequencies by `k ≥ 0` scales every pairwise distance by `k`. -/
lemma pairDist_map_mul (k : ℚ) (hk : 0 ≤ k) (f1 f2 : List ℚ) (p : ℕ × ℕ) :
    pairDist (f1.map (fun x => k * x)) (f2.map (fun x => k * x)) p =
      k * pairDist f1 f2 p := by
  rw [pairDist, pairDist, getD_map_mul, getD_map_mul, ← mul_sub, abs_mul,
    abs_of_nonneg hk]

/-- Insertion commutes with scaling by a positive factor. -/
lemma orderedInsert_map_mul (k : ℚ) (hk : 0 < k) (a : ℚ) : ∀ l : List ℚ,
    (l.map (fun x => k * x)).orderedInsert (· ≤ ·) (k * a) =
      (l.orderedInsert (· ≤ ·) a).map (fun x => k * x) := by
  intro l
  induction l with
  | nil => simp
  | cons b t ih =>
    by_cases h : a ≤ b
    · rw [List.map_cons, List.orderedInsert, List.orderedInsert,
        if_pos (by nlinarith : k * a ≤ k * b), if_pos h]
      simp
    · rw [List.map_cons, List.orderedInsert, List.orderedInsert,
        if_neg (by intro hc; exact h (by nlinarith)), if_neg h,
        List.map_cons, ih]

/-- Insertion sort commutes with scaling by a positive factor. -/
lemma insertionSort_map_mul (k : ℚ) (hk : 0 < k) : ∀ l : List ℚ,
    (l.map (fun x => k * x)).insertionSort (· ≤ ·) =
      (l.insertionSort (· ≤ ·)).map (fun x => k * x) := by
  intro l
  induction l with
  | nil => simp
  | cons a t ih =>
    rw [List.map_cons, List.insertionSort, List.insertionSort, ih,
      orderedInsert_map_mul k hk]

/-- `npSort` commutes with scaling by a positive factor. -/
lemma npSort_map_mul (k : ℚ) (hk : 0 < k) (l : List ℚ) :
    npSort (l.map (fun x => k * x)) = (npSort l).map (fun x => k * x) :=
  insertionSort_map_mul k hk l

/-- `np.percentile` is positively homogeneous. -/
lemma npPercentile_map_mul (k : ℚ) (hk : 0 < k) (l : List ℚ) (q : ℚ) :
    npPercentile (l.map (fun x => k * x)) q = k * npPercentile l q := by
  rw [npPercentile, npPercentile, npSort_map_mul k hk, List.length_map]
  simp only [getD_map_mul]
  ring

/-- The dynamic threshold after scaling all distances by `k ≥ 1` satisfies
`T' + 1 ≤ k * (T + 1)`, which is what the greedy cutoff comparison needs. -/
lemma dynThreshold_bound (k : ℚ) (hk : 1 ≤ k) (dists : List ℚ) :
    dynThreshold (dists.map (fun x => k * x)) + 1 ≤ k * (dynThreshold dists + 1) := by
  have hk0 : (0 : ℚ) < k := lt_of_lt_of_le one_pos hk
  rw [dynThreshold, dynThreshold, List.length_map]
  split_ifs with h
  · rw [npMedian, npMedian, npPercentile_map_mul k hk0, npPercentile_map_mul k hk0,
      npPercentile_map_mul k hk0]
    have he : k * npPercentile dists 50 +
        3 / 2 * (k * npPercentile dists 75 - k * npPercentile dists 25) =
        k * (npPercentile dists 50 +
          3 / 2 * (npPercentile dists 75 - npPercentile dists 25)) := by
      ring
    rw [he]
    rcases le_total (npPercentile dists 50 +
        3 / 2 * (npPercentile dists 75 - npPercentile dists 25)) 10 with hc | hc
    · rw [min_eq_left hc]
      have h1 := min_le_left (k * (npPercentile dists 50 +
        3 / 2 * (npPercentile dists 75 - npPercentile dists 25))) 10
      linarith
    · rw [min_eq_right hc]
      have h1 := min_le_right (k * (npPercentile dists 50 +
        3 / 2 * (npPercentile dists 75 - npPercentile dists 25))) 10
      linarith
  · linarith

/-- Relation between an original scan state and the state of the scan over
the `k`-scaled distances: either the scaled scan has recorded nothing and its
running minimum is at most `k` times the original one, or both scans have
recorded the same pair and their minima are the pair's distance and its
`k`-multiple. -/
def ScanRel (k : ℚ) (d : ℕ × ℕ → ℚ) (so ss : ℚ × Option (ℕ × ℕ)) : Prop :=
  (ss.2 = none ∧ ss.1 ≤ k * so.1) ∨
  (∃ q, so.2 = some q ∧ ss.2 = some q ∧ so.1 = d q ∧ ss.1 = k * d q)

/-- One scan step preserves `ScanRel`. -/
lemma scanRel_step (k : ℚ) (hk : 0 < k) (d : ℕ × ℕ → ℚ) (q : ℕ × ℕ)
    (so ss : ℚ × Option (ℕ × ℕ)) (h : ScanRel k d so ss) :
    ScanRel k d (scanStep d so q) (scanStep (fun p => k * d p) ss q) := by
  have hso_eq : scanStep d so q = if d q < so.1 then (d q, some q) else so := rfl
  have hss_eq : scanStep (fun p => k * d p) ss q =
      if k * d q < ss.1 then (k * d q, some q) else ss := rfl
  rcases h with ⟨h2, h1⟩ | ⟨q0, e1, e2, e3, e4⟩
  · by_cases hss : k * d q < ss.1
    · have hso : d q < so.1 := by
        by_contra hcon
        push_neg at hcon
        have := mul_le_mul_of_nonneg_left hcon (le_of_lt hk)
        linarith
      rw [hso_eq, if_pos hso, hss_eq, if_pos hss]
      exact Or.inr ⟨q, rfl, rfl, rfl, rfl⟩
    · rw [hss_eq, if_neg hss]
      by_cases hso : d q < so.1
      · rw [hso_eq, if_pos hso]
        exact Or.inl ⟨h2, not_lt.mp hss⟩
      · rw [hso_eq, if_neg hso]
        exact Or.inl ⟨h2, h1⟩
  · by_cases hlt : d q < d q0
    · have hss : k * d q < ss.1 := by
        rw [e4]
        exact (mul_lt_mul_left_rat k _ _ hk).mpr hlt
      have hso : d q < so.1 := by
        rw [e3]
        exact hlt
      rw [hso_eq, if_pos hso, hss_eq, if_pos hss]
      exact Or.inr ⟨q, rfl, rfl, rfl, rfl⟩
    · have hss : ¬ k * d q < ss.1 := by
        rw [e4]
        intro hc
        exact hlt ((mul_lt_mul_left_rat k _ _ hk).mp hc)
      have hso : ¬ d q < so.1 := by
        rw [e3]
        exact hlt
      rw [hso_eq, if_neg hso, hss_eq, if_neg hss]
      exact Or.inr ⟨q0, e1, e2, e3, e4⟩

/-- The whole scan preserves `ScanRel`. -/
lemma scanRel_foldl (k : ℚ) (hk : 0 < k) (d : ℕ × ℕ → ℚ)
    (l : List (ℕ × ℕ)) :
    ∀ so ss, ScanRel k d so ss →
      ScanRel k d (l.foldl (scanStep d) so)
        (l.foldl (scanStep (fun p => k * d p)) ss) := by
  induction l with
  | nil => intro so ss h; exact h
  | cons q t ih =>
    intro so ss h
    exact ih _ _ (scanRel_step k hk d q so ss h)

/-- The greedy loop over the `k`-scaled frequencies (whatever its PSD
arrays) never records more pairs than the original loop, provided the scaled
cutoff satisfies `Ts + 1 ≤ k * (T + 1)`. -/
lemma pairLoop_length_mono (k : ℚ) (hk : 0 < k) (f1 f2 s1 s2 s1b s2b : List ℚ)
    (T Ts : ℚ) (hC : Ts + 1 ≤ k * (T + 1)) :
    ∀ (fuel : ℕ) (u1 u2 : List ℕ),
      (pairLoop (f1.map (fun x => k * x)) (f2.map (fun x => k * x)) s1b s2b Ts
          fuel u1 u2).paired_peaks.length ≤
      (pairLoop f1 f2 s1 s2 T fuel u1 u2).paired_peaks.length := by
  have hd : pairDist (f1.map (fun x => k * x)) (f2.map (fun x => k * x)) =
      fun q => k * pairDist f1 f2 q :=
    funext (pairDist_map_mul k (le_of_lt hk) f1 f2)
  intro fuel
  induction fuel with
  | zero => intro u1 u2; simp [pairLoop]
  | succ n ih =>
    intro u1 u2
    by_cases hemp : u1 = [] ∨ u2 = []
    · simp [pairLoop, hemp]
    · have hrel := scanRel_foldl k hk (pairDist f1 f2) (allPairs u1 u2)
        (T + 1, none) (Ts + 1, none) (Or.inl ⟨rfl, hC⟩)
      have hfs_eq : findClosestPair
          (pairDist (f1.map (fun x => k * x)) (f2.map (fun x => k * x))) u1 u2
          (Ts + 1) =
          (allPairs u1 u2).foldl (scanStep (fun p => k * pairDist f1 f2 p))
            (Ts + 1, none) := by
        rw [findClosestPair, hd]
      rcases hscaled : ((allPairs u1 u2).foldl
          (scanStep (fun p => k * pairDist f1 f2 p)) (Ts + 1, none)).2 with - | pq
      · have hz : (pairLoop (f1.map (fun x => k * x)) (f2.map (fun x => k * x))
            s1b s2b Ts (n + 1) u1 u2).paired_peaks = [] := by
          rw [pairLoop, if_neg hemp]
          rw [show (findClosestPair
            (pairDist (f1.map (fun x => k * x)) (f2.map (fun x => k * x))) u1 u2
            (Ts + 1)).2 = none from by rw [hfs_eq]; exact hscaled]
        simp [hz]
      · obtain ⟨p1, p2⟩ := pq
        rcases hrel with ⟨hnone, -⟩ | ⟨q0, e1, e2, e3, e4⟩
        · rw [hscaled] at hnone
          cases hnone
        · rw [hscaled] at e2
          injection e2 with e2
          subst e2
          have horig : (findClosestPair (pairDist f1 f2) u1 u2 (T + 1)).2 =
              some (p1, p2) := by
            rw [findClosestPair]
            exact e1

          have hA : (pairLoop (f1.map (fun x => k * x)) (f2.map (fun x => k * x))
              s1b s2b Ts (n + 1) u1 u2).paired_peaks.length =
              (pairLoop (f1.map (fun x => k * x)) (f2.map (fun x => k * x))
                s1b s2b Ts n (u1.erase p1) (u2.erase p2)).paired_peaks.length + 1 := by
            rw [pairLoop, if_neg hemp]
            rw [show (findClosestPair
              (pairDist (f1.map (fun x => k * x)) (f2.map (fun x => k * x))) u1 u2
              (Ts + 1)).2 = some (p1, p2) from by rw [hfs_eq]; exact hscaled]
            simp
          have hB : (pairLoop f1 f2 s1 s2 T (n + 1) u1 u2).paired_peaks.length =
              (pairLoop f1 f2 s1 s2 T n
                (u1.erase p1) (u2.erase p2)).paired_peaks.length + 1 := by
            rw [pairLoop, if_neg hemp, horig]
            simp
          rw [hA, hB]
          exact Nat.succ_le_succ (ih (u1.erase p1) (u2.erase p2))

/-- C7: uniformly scaling all pairwise frequency distances up by a factor
`k > 1` (multiplying both signals' frequency arrays by `k`, whatever the PSD
arrays) never increases the number of pairs produced by `_pair_peaks`, under
its dynamic threshold `min(median + 1.5 * IQR, 10)` (and `10` when either
peak set is empty). -/
theorem pairPeaks_scaling_monotone (k : ℚ) (hk : 1 < k)
    (peaks1 : List ℕ) (freqs1 psd1 : List ℚ)
    (peaks2 : List ℕ) (freqs2 psd2 psd1b psd2b : List ℚ) :
    (pairPeaks peaks1 (freqs1.map (fun x => k * x)) psd1b
        peaks2 (freqs2.map (fun x => k * x)) psd2b).paired_peaks.length ≤
    (pairPeaks peaks1 freqs1 psd1 peaks2 freqs2 psd2).paired_peaks.length := by
  have hk0 : (0 : ℚ) < k := lt_trans one_pos hk
  have hd : pairDist (freqs1.map (fun x => k * x)) (freqs2.map (fun x => k * x)) =
      fun q => k * pairDist freqs1 freqs2 q :=
    funext (pairDist_map_mul k (le_of_lt hk0) freqs1 freqs2)
  rw [pairPeaks, pairPeaks]
  have hdists : (allPairs peaks1 peaks2).map
      (pairDist (freqs1.map (fun x => k * x)) (freqs2.map (fun x => k * x))) =
      ((allPairs peaks1 peaks2).map (pairDist freqs1 freqs2)).map
        (fun x => k * x) := by
    rw [hd, List.map_map]
    rfl
  rw [hdists]
  exact pairLoop_length_mono k hk0 freqs1 freqs2 psd1 psd2 psd1b psd2b
    (dynThreshold ((allPairs peaks1 peaks2).map (pairDist freqs1 freqs2)))
    (dynThreshold (((allPairs peaks1 peaks2).map (pairDist freqs1 freqs2)).map
      (fun x => k * x)))
    (dynThreshold_bound k (le_of_lt hk) _) peaks1.length peaks1 peaks2

/-- C7 witness: the theorem at `k = 2` on concrete peak sets. -/
theorem pairPeaks_scaling_monotone_witness :
    (1 : ℚ) < 2 ∧
    (pairPeaks [0, 1] (([5, 20] : List ℚ).map (fun x => 2 * x)) [1, 1]
        [0, 1] (([6, 40] : List ℚ).map (fun x => 2 * x)) [1, 1]).paired_peaks.length ≤
    (pairPeaks [0, 1] [5, 20] [1, 1] [0, 1] [6, 40] [1, 1]).paired_peaks.length := by
  exact ⟨by norm_num,
    pairPeaks_scaling_monotone 2 (by norm_num) [0, 1] [5, 20] [1, 1]
      [0, 1] [6, 40] [1, 1] [1, 1] [1, 1]⟩

end ShakeTune
